import Mathlib

/-!
Verification development for the arXiv blog-article generation script
(`src/hatena/scripts/generate-article.py`).  The definitions below are a
shallow embedding of the script's pure decision logic: paper records,
coverage-set extraction, score parsing and ranking, selection with
fallback, document assembly, and category resolution.  Machine text is
modelled as Lean `String` or `List Char`; JSON dictionaries coming from
the language-model reply are records of `Option` fields; fallible steps
return `Option`/`Except`.
-/

/-- Mirrors the `Paper` TypedDict of the script (all metadata fields). -/
structure Paper where
  arxiv_id : String
  title : String
  authors : List String
  abstract : String
  categories : List String
  published : String
  url : String
  pdf_url : String
deriving DecidableEq, Repr

/-- One score record parsed from the model's JSON reply.  JSON objects may
omit any key, hence every field is optional; the script reads the fields
with `dict.get` and a default. -/
structure ScoreRec where
  index : Option Int
  novelty : Option Int
  practical : Option Int
  excitement : Option Int
  total : Option Int
  reason : Option String
deriving DecidableEq, Repr

/-- The exception classes the scoring step can raise.  `score_papers`
can surface an `HTTPError` (an HTTP status error from `urlopen`), a
plain `URLError` that is not an `HTTPError` (network-level failure; in
Python `HTTPError` is the subclass of `URLError`, not the converse), a
`RuntimeError` raised by `_call_claude_api` (API-reported error or empty
content), a `json.JSONDecodeError` from parsing the cleaned reply, an
`AttributeError` when the reply is a valid JSON array whose entries are
not objects (the sort key calls `s.get` on a non-dict), or a
`TypeError` (e.g. unorderable mixed-type totals during the sort). -/
inductive ScoringError where
  | httpError (msg : String)
  | urlError (msg : String)
  | runtimeError (msg : String)
  | jsonDecodeError (msg : String)
  | attributeError (msg : String)
  | typeError (msg : String)
deriving DecidableEq, Repr

/-- The except tuple of `main` line 427:
`except (HTTPError, RuntimeError, json.JSONDecodeError)`.  The other
exception classes of the scoring step are not in the tuple. -/
def caught_by_main : ScoringError → Bool
  | ScoringError.httpError _ => true
  | ScoringError.runtimeError _ => true
  | ScoringError.jsonDecodeError _ => true
  | ScoringError.urlError _ => false
  | ScoringError.attributeError _ => false
  | ScoringError.typeError _ => false

/-- The synthetic score list substituted on a scoring failure
(line 429 of the script). -/
def fallbackScores : List ScoreRec :=
  [{ index := some 0, novelty := none, practical := none,
     excitement := none, total := some 0, reason := some ("fallback") }]

/-- Embeds the try/except around `score_papers` in `main` (lines
425-429): an `ok` outcome passes the scorer's list through; a failure
whose class is in the except tuple is replaced by the synthetic fallback
list, the boolean recording the diagnostic printed to stderr; a failure
of any other class is not caught and propagates out of `main` (the run
aborts with a traceback). -/
def scoring_step (outcome : Except ScoringError (List ScoreRec)) :
    Except ScoringError (List ScoreRec × Bool) :=
  match outcome with
  | Except.ok s => Except.ok (s, false)
  | Except.error e =>
    if caught_by_main e then Except.ok (fallbackScores, true)
    else Except.error e

/-- Embeds lines 432-434 of the script: `best_index = int(best.get("index", 0))`
followed by the clamp `if best_index < 0 or best_index >= len(candidates):
best_index = 0`.  `n` is `len(candidates)`. -/
def best_index (best : ScoreRec) (n : Nat) : Int :=
  let i : Int := best.index.getD 0
  if i < 0 ∨ (n : Int) ≤ i then 0 else i

/-- Embeds the selection step of `main` (lines 431-444): take the first
(highest-ranked) score record, clamp its index, pick
`candidates[best_index]`, and build the related-papers list by filtering
on identifier inequality against the chosen paper.  `none` models the
`IndexError` the Python code would raise on `scores[0]` /
`candidates[best_index]` when the corresponding list is empty. -/
def select_paper (candidates : List Paper) (scores : List ScoreRec) :
    Option (Paper × List Paper) :=
  match scores with
  | [] => none
  | best :: _ =>
    let bi : Nat := (best_index best candidates.length).toNat
    match candidates.get? bi with
    | none => none
    | some paper =>
      some (paper, candidates.filter (fun p => p.arxiv_id != paper.arxiv_id))

/-- Embeds the sort of `score_papers` (line 259):
`scores.sort(key=lambda s: s.get("total", 0), reverse=True)`.
Python's `list.sort` is a stable sort; a descending stable sort by the
key `s.get("total", 0)` is `mergeSort` with the comparator below
(`le a b` iff `b`'s key does not exceed `a`'s key). -/
def score_papers_sort (scores : List ScoreRec) : List ScoreRec :=
  scores.mergeSort (fun a b => decide (b.total.getD 0 ≤ a.total.getD 0))

/-- One entry of the JSON array parsed from the scorer's reply.  The
array comes from an untrusted source, so an entry is either a JSON
object (read as a `ScoreRec`) or some other JSON value such as a
number or a string. -/
inductive ScoreEntry where
  | obj (r : ScoreRec)
  | nonObj (shown : String)
deriving DecidableEq, Repr

/-- Whether a parsed entry is a JSON object. -/
def ScoreEntry.isObj : ScoreEntry → Bool
  | ScoreEntry.obj _ => true
  | ScoreEntry.nonObj _ => false

/-- The `ScoreRec` carried by an object entry. -/
def ScoreEntry.toRec : ScoreEntry → Option ScoreRec
  | ScoreEntry.obj r => some r
  | ScoreEntry.nonObj _ => none

/-- Embeds the tail of `score_papers` (lines 258-260) over the parsed
array of an untrusted reply: `list.sort` with
`key=lambda s: s.get("total", 0)` evaluates the key on every entry, so
any non-object entry raises `AttributeError` out of `score_papers`
(there is no fallback inside the scorer); when every entry is an
object, the stable descending sort of `score_papers_sort` applies. -/
def score_entries_sort (entries : List ScoreEntry) :
    Except ScoringError (List ScoreRec) :=
  if entries.all ScoreEntry.isObj then
    Except.ok (score_papers_sort (entries.filterMap ScoreEntry.toRec))
  else
    Except.error (ScoringError.attributeError
      ("object has no attribute get"))

/-- Mirrors the `WEEKDAY_CATEGORIES` dict (lines 34-40): weekday 0 is
Monday; weekends are absent from the table. -/
def WEEKDAY_CATEGORIES : Nat → Option (List String) :=
  fun w =>
    match w with
    | 0 => some [("cs.CV")]
    | 1 => some [("cs.CV")]
    | 2 => some [("cs.AI")]
    | 3 => some [("cs.LG")]
    | 4 => some [("cs.CV"), ("cs.AI"), ("cs.LG"), ("cs.CL")]
    | _ => none

/-- Models `random.choice`: the RNG draw is abstracted by the number `r`,
which selects the element at position `r % len(l)`.  Any element of a
non-empty list is reachable for a suitable `r`. -/
def randomChoice (r : Nat) (l : List String) : String :=
  l.getD (r % l.length) ("")

/-- The weekday branch of `get_category_for_today` (lines 358-360):
`WEEKDAY_CATEGORIES.get(weekday, ["cs.CV"])` then `random.choice`. -/
def weekday_category (weekday r : Nat) : String :=
  randomChoice r ((WEEKDAY_CATEGORIES weekday).getD [("cs.CV")])

/-- Embeds `get_category_for_today` (lines 346-360).  The Python guard is
`if override:`, which is false for `None` and for the empty string. -/
def get_category_for_today (override : Option String) (weekday r : Nat) :
    String :=
  match override with
  | some s => if s = "" then weekday_category weekday r else s
  | none => weekday_category weekday r

/-- Embeds `build_footer` (lines 331-343): the fixed separator plus the
citation line `> **原論文**: [title](url)`. -/
def build_footer (paper : Paper) : String :=
  "\n---\n" ++ "> **原論文**: [" ++ paper.title ++ "](" ++ paper.url ++ ")\n"

/-- Embeds line 458 of `main`: `body_only = f"{article_body}\n{footer}"`. -/
def assemble_body (article_body footer : String) : String :=
  article_body ++ "\n" ++ footer

/-- Embeds line 460 of `main`:
`full_article = f"{frontmatter}\n\n{body_only}"`. -/
def assemble_full (frontmatter body_only : String) : String :=
  frontmatter ++ "\n\n" ++ body_only

/-- Python `str` whitespace as used by `str.strip()` (ASCII part). -/
def isPyWs (c : Char) : Bool :=
  c = ' ' ∨ c = '\t' ∨ c = '\n' ∨ c = '\r' ∨ c = '\x0b' ∨ c = '\x0c'

/-- Removes trailing characters satisfying `isPyWs` (the right half of
Python `str.strip()`). -/
def rstripWs : List Char → List Char
  | [] => []
  | c :: rest =>
    let r := rstripWs rest
    if r = [] ∧ isPyWs c then [] else c :: r

/-- Python `str.strip()` on a character list: drop leading and trailing
whitespace. -/
def pyStrip (l : List Char) : List Char :=
  rstripWs (l.dropWhile isPyWs)

/-- Python `str.strip()` on a `String`. -/
def pyStripStr (s : String) : String :=
  String.mk (pyStrip s.data)

/-- Python `s.split(c)[0]` for a single-character separator `c`: the text
before the first occurrence of `c` (the whole text when `c` is absent). -/
def takeUntil (c : Char) (l : List Char) : List Char :=
  l.takeWhile (fun a => a != c)

/-- Fuel-driven core of Python `str.split(sep)` on character lists.  One
unit of fuel is spent per character, so `fuel = l.length` always
suffices; the fuel keeps the recursion structural so that terms reduce
inside `decide`. -/
def splitOnFuel (sep : List Char) : Nat → List Char → List (List Char)
  | _, [] => [[]]
  | 0, l => [l]
  | fuel + 1, c :: rest =>
    if sep ≠ [] ∧ sep.isPrefixOf (c :: rest) then
      [] :: splitOnFuel sep fuel ((c :: rest).drop sep.length)
    else
      match splitOnFuel sep fuel rest with
      | [] => [[c]]
      | h :: t => (c :: h) :: t

/-- Python `str.split(sep)` (all occurrences, left to right,
non-overlapping) on character lists. -/
def splitOnL (sep l : List Char) : List (List Char) :=
  splitOnFuel sep l.length l

/-- Inverse view of a split: interleave the separator back between the
parts. -/
def joinSep (sep : List Char) : List (List Char) → List Char
  | [] => []
  | [x] => x
  | x :: xs => x ++ sep ++ joinSep sep xs

/-- Python `pat in l` (substring containment) for a pattern `pat`. -/
def occursIn (pat l : List Char) : Bool :=
  (List.range (l.length + 1)).any (fun i => pat.isPrefixOf (l.drop i))

/-- The coverage-index marker substring `"arxiv.org/abs/"` (line 144). -/
def arxivMarker : List Char :=
  "arxiv.org/abs/".data

/-- Embeds the identifier extraction of `find_existing_arxiv_ids`
(lines 144-148): when the marker occurs in the line, split on it and, if
there is a part after the first occurrence, cut it at the first `)`
then `]` then space and strip it; otherwise no identifier. -/
def extract_arxiv_id (line : List Char) : Option (List Char) :=
  if occursIn arxivMarker line then
    match splitOnL arxivMarker line with
    | _ :: p1 :: _ =>
      some (pyStrip (takeUntil ' ' (takeUntil ']' (takeUntil ')' p1))))
    | _ => none
  else none

/-- Modelled from C6's wording, for comparison with `extract_arxiv_id`:
take the text immediately following the first marker occurrence, cut at
the first closing parenthesis, closing bracket, or whitespace character,
whichever comes first, and trim surrounding whitespace. -/
def claimed_extract_arxiv_id (line : List Char) : Option (List Char) :=
  ((List.range (line.length + 1)).find?
      (fun i => arxivMarker.isPrefixOf (line.drop i))).map
    (fun i =>
      let post := line.drop (i + arxivMarker.length)
      pyStrip (post.takeWhile (fun c => !(c = ')' ∨ c = ']' ∨ isPyWs c))))

/-- Python `str.splitlines()`: split at `\n`, `\r`, and `\r\n`, with no
trailing empty line.  The accumulator holds the current line reversed. -/
def splitlinesAux : List Char → List Char → List (List Char)
  | [], cur => if cur.isEmpty then [] else [cur.reverse]
  | '\r' :: '\n' :: rest, cur => cur.reverse :: splitlinesAux rest []
  | '\n' :: rest, cur => cur.reverse :: splitlinesAux rest []
  | '\r' :: rest, cur => cur.reverse :: splitlinesAux rest []
  | c :: rest, cur => splitlinesAux rest (c :: cur)

/-- Python `content.splitlines()` (line 143). -/
def pySplitlines (content : List Char) : List (List Char) :=
  splitlinesAux content []

/-- Python `set.add`: the coverage set is modelled as a duplicate-free
list. -/
def insertSet (x : List Char) (s : List (List Char)) : List (List Char) :=
  if x ∈ s then s else x :: s

/-- Per-line step of `find_existing_arxiv_ids` (lines 143-150): extract
an identifier from the line and add it to the set only when it is
non-empty (`if aid:`). -/
def add_line_id (acc : List (List Char)) (line : List Char) :
    List (List Char) :=
  match extract_arxiv_id line with
  | some aid => if aid ≠ [] then insertSet aid acc else acc
  | none => acc

/-- Embeds `find_existing_arxiv_ids` (lines 125-152) over the contents of
the markdown files found under the two directories (the directory walk
and file reads are I/O; the function is modelled over the list of file
contents it visits). -/
def find_existing_arxiv_ids (files : List (List Char)) :
    List (List Char) :=
  files.foldl
    (fun acc content => (pySplitlines content).foldl add_line_id acc) []

/-- The code-fence marker checked by `score_papers` (line 254). -/
def fenceMarker : List Char :=
  "```".data

/-- Index of the last occurrence of `pat` in a character list (`none`
when `pat` does not occur).  Occurrences in the tail are preferred, so
the deepest (right-most) match wins. -/
def findLastOcc (pat : List Char) : List Char → Option Nat
  | [] => if pat = [] then some 0 else none
  | c :: rest =>
    match findLastOcc pat rest with
    | some i => some (i + 1)
    | none => if pat.isPrefixOf (c :: rest) then some 0 else none

/-- Python `l.rsplit(pat, 1)[0]`: everything before the last occurrence
of `pat`, or the whole text when `pat` is absent. -/
def rsplitLastBefore (pat l : List Char) : List Char :=
  match findLastOcc pat l with
  | none => l
  | some i => l.take i

/-- Python `l.split("\n", 1)[1]`: the text after the first newline.
`none` models the `IndexError` raised when there is no newline. -/
def dropThroughNewline : List Char → Option (List Char)
  | [] => none
  | c :: rest => if c = '\n' then some rest else dropThroughNewline rest

/-- Embeds the reply cleaning of `score_papers` (lines 253-256):
`cleaned = raw.strip()`; if it starts with a fence marker, drop its first
line and everything from the last fence marker on. -/
def clean_reply (raw : List Char) : Option (List Char) :=
  let cleaned := pyStrip raw
  if fenceMarker.isPrefixOf cleaned then
    (dropThroughNewline cleaned).map (fun t => rsplitLastBefore fenceMarker t)
  else
    some cleaned

/-- A reply wrapped in a fenced code block: the concrete shape named by
C5, with an arbitrary wrapped text `s`. -/
def fenceWrap (s : List Char) : List Char :=
  "```json\n".data ++ s ++ '\n' :: fenceMarker

/-- A minimal concrete score-list parser that, like JSON parsing, is
insensitive to surrounding whitespace: it recognises exactly the empty
array.  Used to instantiate the parser abstraction on concrete input. -/
def parseStub (l : List Char) : Option (List ScoreRec) :=
  if pyStrip l = "[]".data then some [] else none

/-- One block of the `content` array of a language-model API response
(`{type, text}`); `type` may be absent. -/
structure ContentBlock where
  type_ : Option String
  text : String
deriving DecidableEq, Repr

/-- The decoded JSON body of a language-model API response, as read by
`_call_claude_api`: the optional `type` tag, the optional
`error.message`, and the `content` blocks. -/
structure ApiResult where
  type_ : Option String
  errorMessage : Option String
  content : List ContentBlock
deriving DecidableEq, Repr

/-- The failures `_call_claude_api` can produce: a transport error
(`HTTPError` from `urlopen`, which the function does not catch and
therefore propagates), an API-reported error (`RuntimeError`), and the
distinct empty-content failure (`RuntimeError` on blank text,
lines 223-224). -/
inductive CallError where
  | httpError (msg : String)
  | apiError (msg : String)
  | emptyContent
deriving DecidableEq, Repr

/-- The text assembled from a response: the `text` of every block whose
`type` equals `"text"`, joined with newlines (lines 219-221). -/
def response_text (result : ApiResult) : String :=
  String.intercalate ("\n")
    ((result.content.filter (fun b => b.type_ = some ("text"))).map
      ContentBlock.text)

/-- Embeds `_call_claude_api` (lines 176-226) over the outcome of the
transport call: a transport failure propagates; an error-typed response
raises an API error; a reply whose joined text is blank raises the
empty-content failure; otherwise the text is returned. -/
def call_claude_api (transport : Except String ApiResult) :
    Except CallError String :=
  match transport with
  | Except.error e => Except.error (CallError.httpError e)
  | Except.ok result =>
    if result.type_ = some ("error") then
      Except.error (CallError.apiError (result.errorMessage.getD ("Unknown error")))
    else
      let text := response_text result
      if pyStripStr text = "" then Except.error CallError.emptyContent
      else Except.ok text

/-- How one run of `main` ends after the drafting step: either the body
text is produced and written, or the process terminates with an exit
code, having written a diagnostic to stderr. -/
inductive RunOutcome where
  | wrote (body : String)
  | exited (code : Nat) (stderrDiag : Bool)
deriving DecidableEq, Repr

/-- Embeds the drafting call of `main` (lines 448-454) together with the
Python interpreter's handling of an uncaught exception.  A caught
`HTTPError` prints to stderr and calls `sys.exit(1)`; any other
exception escaping `main` makes the interpreter print a traceback to
stderr and exit with status 1. -/
def drafting_step (r : Except CallError String) : RunOutcome :=
  match r with
  | Except.ok t => RunOutcome.wrote t
  | Except.error (CallError.httpError _) => RunOutcome.exited 1 true
  | Except.error _ => RunOutcome.exited 1 true

theorem best_index_bounds (best : ScoreRec) (n : Nat) (hn : 0 < n) :
    0 ≤ best_index best n ∧ best_index best n < (n : Int) := by
  unfold best_index
  rcases best.index with _ | i <;> simp only [Option.getD] <;> split <;> omega

theorem filter_bne_eraseIdx :
    ∀ (l : List Paper) (i : Nat) (hi : i < l.length),
      (l.map Paper.arxiv_id).Nodup →
      l.filter (fun p => p.arxiv_id != l[i].arxiv_id) = l.eraseIdx i
  | [], i, hi, _ => by simp at hi
  | a :: t, 0, _, hnd => by
    rw [List.map_cons, List.nodup_cons] at hnd
    have hkeep : t.filter (fun p => p.arxiv_id != a.arxiv_id) = t := by
      refine List.filter_eq_self.mpr ?_
      intro p hp
      have : p.arxiv_id ≠ a.arxiv_id := by
        intro he
        exact hnd.1 (he ▸ List.mem_map_of_mem Paper.arxiv_id hp)
      simpa [bne_iff_ne] using this
    simp [List.filter_cons, hkeep]
  | a :: t, i + 1, hi, hnd => by
    rw [List.map_cons, List.nodup_cons] at hnd
    have hi' : i < t.length := by simpa using hi
    have hane : a.arxiv_id ≠ t[i].arxiv_id := by
      intro he
      exact hnd.1 (he ▸ List.mem_map_of_mem Paper.arxiv_id (t.getElem_mem hi'))
    have ih := filter_bne_eraseIdx t i hi' hnd.2
    simp [List.filter_cons, bne_iff_ne, hane, ih, List.eraseIdx_cons_succ]

/-- C1: for every non-empty candidate list with pairwise-distinct
identifiers and a non-empty score list, selection returns a chosen paper
that is an element of the candidates, and the related-papers list is the
candidate list with exactly that element removed, in the original order
(the removal is decided by identifier inequality in `select_paper`). -/
theorem selector_returns_member_and_erases_chosen :
    ∀ (cands : List Paper) (scores : List ScoreRec),
      cands ≠ [] → (cands.map Paper.arxiv_id).Nodup → scores ≠ [] →
      ∃ (i : Nat) (hi : i < cands.length),
        select_paper cands scores = some (cands[i], cands.eraseIdx i) ∧
        cands[i] ∈ cands := by
  intro cands scores h1 h2 h3
  match scores with
  | [] => exact absurd rfl h3
  | best :: rest =>
    have hn : 0 < cands.length := List.length_pos.mpr h1
    obtain ⟨hb0, hbn⟩ := best_index_bounds best cands.length hn
    have hbi : (best_index best cands.length).toNat < cands.length := by omega
    refine ⟨(best_index best cands.length).toNat, hbi, ?_,
      cands.getElem_mem hbi⟩
    have hget : cands.get? (best_index best cands.length).toNat =
        some cands[(best_index best cands.length).toNat] := by
      rw [List.get?_eq_getElem?, List.getElem?_eq_getElem hbi]
    simp only [select_paper, hget]
    exact congrArg some
      (congrArg _ (filter_bne_eraseIdx cands _ hbi h2))

theorem selector_returns_member_witness :
    ∃ (i : Nat)
      (hi : i < ([⟨"2401.1", "A", [], "x", [], "d", "u", "p"⟩,
                  ⟨"2401.2", "B", [], "y", [], "d", "v", "q"⟩] :
                   List Paper).length),
      select_paper
          [⟨"2401.1", "A", [], "x", [], "d", "u", "p"⟩,
           ⟨"2401.2", "B", [], "y", [], "d", "v", "q"⟩]
          [⟨some 1, none, none, none, some 9, none⟩] =
        some (([⟨"2401.1", "A", [], "x", [], "d", "u", "p"⟩,
                ⟨"2401.2", "B", [], "y", [], "d", "v", "q"⟩] :
                 List Paper)[i],
              ([⟨"2401.1", "A", [], "x", [], "d", "u", "p"⟩,
                ⟨"2401.2", "B", [], "y", [], "d", "v", "q"⟩] :
                 List Paper).eraseIdx i) ∧
      ([⟨"2401.1", "A", [], "x", [], "d", "u", "p"⟩,
        ⟨"2401.2", "B", [], "y", [], "d", "v", "q"⟩] :
         List Paper)[i] ∈
        ([⟨"2401.1", "A", [], "x", [], "d", "u", "p"⟩,
          ⟨"2401.2", "B", [], "y", [], "d", "v", "q"⟩] : List Paper) :=
  selector_returns_member_and_erases_chosen _ _
    (by decide) (by decide) (by decide)

/-- C3: reading the highest-ranked score record, a missing index is
treated as 0 and an out-of-range index (negative or at least the
candidate count) is clamped to 0, so for a non-empty candidate list the
resulting position is always in range. -/
theorem best_index_defaults_and_clamps :
    ∀ (best : ScoreRec) (n : Nat), 0 < n →
      (best.index = none → best_index best n = 0) ∧
      (∀ i : Int, best.index = some i → (i < 0 ∨ (n : Int) ≤ i) →
        best_index best n = 0) ∧
      0 ≤ best_index best n ∧ best_index best n < (n : Int) := by
  intro best n hn
  refine ⟨?_, ?_, best_index_bounds best n hn⟩
  · intro h
    simp [best_index, h]
  · intro i h hout
    simp only [best_index, h, Option.getD]
    split
    · rfl
    · omega

theorem best_index_defaults_witness :
    best_index ⟨some 12, none, none, none, none, none⟩ 3 = 0 ∧
    best_index ⟨none, none, none, none, some 5, none⟩ 3 = 0 ∧
    0 ≤ best_index ⟨some 12, none, none, none, none, none⟩ 3 ∧
    best_index ⟨some 12, none, none, none, none, none⟩ 3 < (3 : Int) :=
  ⟨(best_index_defaults_and_clamps ⟨some 12, none, none, none, none, none⟩ 3
      (by decide)).2.1 12 rfl (by decide),
   (best_index_defaults_and_clamps ⟨none, none, none, none, some 5, none⟩ 3
      (by decide)).1 rfl,
   (best_index_defaults_and_clamps ⟨some 12, none, none, none, none, none⟩ 3
      (by decide)).2.2⟩

/-- C2: the fallback does not cover every scoring failure.  A reply
that is the valid JSON array of numbers `[1, 2, 3]` makes the sort key
raise `AttributeError` inside `score_papers`, and that class — like a
non-HTTP `URLError` or a `TypeError` — is outside the except tuple of
line 427, so it propagates out of `main` and the run aborts with no
fallback, against the claim's fallback for any reason.  Exactly the
three caught classes (`HTTPError`, `RuntimeError`,
`json.JSONDecodeError`) substitute the synthetic record
`{index: 0, total: 0, reason: "fallback"}`, report to stderr, and make
selection choose `candidates[0]`. -/
theorem scorer_uncaught_failure_fatal :
    scoring_step (score_entries_sort
        [ScoreEntry.nonObj ("1"), ScoreEntry.nonObj ("2"),
         ScoreEntry.nonObj ("3")]) =
      Except.error (ScoringError.attributeError
        ("object has no attribute get")) ∧
    (∀ m, scoring_step (Except.error (ScoringError.urlError m)) =
      Except.error (ScoringError.urlError m)) ∧
    (∀ m, scoring_step (Except.error (ScoringError.attributeError m)) =
      Except.error (ScoringError.attributeError m)) ∧
    (∀ m, scoring_step (Except.error (ScoringError.typeError m)) =
      Except.error (ScoringError.typeError m)) ∧
    (∀ m, scoring_step (Except.error (ScoringError.httpError m)) =
      Except.ok (fallbackScores, true)) ∧
    (∀ m, scoring_step (Except.error (ScoringError.runtimeError m)) =
      Except.ok (fallbackScores, true)) ∧
    (∀ m, scoring_step (Except.error (ScoringError.jsonDecodeError m)) =
      Except.ok (fallbackScores, true)) ∧
    select_paper [⟨"2401.1", "A", [], "x", [], "d", "u", "p"⟩]
        fallbackScores =
      some (⟨"2401.1", "A", [], "x", [], "d", "u", "p"⟩, []) :=
  ⟨rfl, fun m => rfl, fun m => rfl, fun m => rfl,
   fun m => rfl, fun m => rfl, fun m => rfl, by decide⟩

theorem scoreLe_trans :
    ∀ a b c : ScoreRec,
      decide (b.total.getD 0 ≤ a.total.getD 0) = true →
      decide (c.total.getD 0 ≤ b.total.getD 0) = true →
      decide (c.total.getD 0 ≤ a.total.getD 0) = true := by
  intro a b c h1 h2
  simp only [decide_eq_true_eq] at *
  omega

theorem scoreLe_total :
    ∀ a b : ScoreRec,
      (decide (b.total.getD 0 ≤ a.total.getD 0) ||
        decide (a.total.getD 0 ≤ b.total.getD 0)) = true := by
  intro a b
  rcases Int.le_total (b.total.getD 0) (a.total.getD 0) with h | h <;> simp [h]

/-- C4: the scorer's sort returns the records as a permutation of its
input, sorted by the reported total in descending order, and stably: for
each total value, the records carrying it keep their relative order from
the parsed reply.  The ranking key is the reported total alone, so a
record whose total disagrees with novelty + practical + excitement is
still ranked by that total. -/
theorem score_sort_desc_stable :
    ∀ (l : List ScoreRec),
      (score_papers_sort l).Perm l ∧
      (score_papers_sort l).Pairwise
        (fun a b => b.total.getD 0 ≤ a.total.getD 0) ∧
      ∀ t : Int,
        (score_papers_sort l).filter (fun s => s.total.getD 0 == t) =
          l.filter (fun s => s.total.getD 0 == t) := by
  intro l
  refine ⟨List.mergeSort_perm l _, ?_, ?_⟩
  · have h := List.sorted_mergeSort scoreLe_trans scoreLe_total l
    exact h.imp (fun hab => of_decide_eq_true hab)
  · intro t
    set p : ScoreRec → Bool := fun s => s.total.getD 0 == t with hp
    have hall : ∀ s ∈ l.filter p, p s = true := fun s hs =>
      List.of_mem_filter hs
    have hpw : (l.filter p).Pairwise
        (fun a b => decide (b.total.getD 0 ≤ a.total.getD 0) = true) := by
      refine List.pairwise_of_forall_mem_list ?_
      intro a ha b hb
      have ha' : a.total.getD 0 = t := by
        have := hall a ha
        simpa [hp] using this
      have hb' : b.total.getD 0 = t := by
        have := hall b hb
        simpa [hp] using this
      simp [ha', hb']
    have hsub : List.Sublist (l.filter p) l := List.filter_sublist l
    have h1 : List.Sublist (l.filter p) (score_papers_sort l) :=
      List.sublist_mergeSort scoreLe_trans scoreLe_total hpw hsub
    have h2 : ((score_papers_sort l).filter p).Perm (l.filter p) :=
      (List.mergeSort_perm l _).filter p
    have h3 : List.Sublist (l.filter p) ((score_papers_sort l).filter p) := by
      have h4 := h1.filter p
      rwa [List.filter_eq_self.mpr hall] at h4
    exact (h3.eq_of_length h2.length_eq.symm).symm

/-- C7: the full document is exactly the frontmatter, one blank line,
and the body; the body is the drafted text followed by the literal
separator line and the citation line carrying the paper's title and
primary link. -/
theorem assemble_concatenation :
    ∀ (frontmatter body_only draft : String) (p : Paper),
      frontmatter ≠ "" → body_only ≠ "" →
      assemble_full frontmatter body_only =
        frontmatter ++ "\n\n" ++ body_only ∧
      assemble_body draft (build_footer p) =
        draft ++ "\n" ++ "\n---\n" ++ "> **原論文**: [" ++ p.title ++
          "](" ++ p.url ++ ")\n" := by
  intro frontmatter body_only draft p h1 h2
  refine ⟨rfl, ?_⟩
  simp only [assemble_body, build_footer, String.append_assoc]

theorem assemble_concatenation_witness :
    assemble_full ("---\nDraft: true\n---") ("text") =
      "---\nDraft: true\n---" ++ "\n\n" ++ "text" ∧
    assemble_body ("text")
        (build_footer ⟨"2401.1", "T", [], "a", [], "d", "u", "p"⟩) =
      "text" ++ "\n" ++ "\n---\n" ++ "> **原論文**: [" ++ "T" ++ "](" ++
        "u" ++ ")\n" :=
  assemble_concatenation _ _ _ _ (by decide) (by decide)

theorem randomChoice_mem (r : Nat) (l : List String) (h : l ≠ []) :
    randomChoice r l ∈ l := by
  have hlen : 0 < l.length := List.length_pos.mpr h
  have hlt : r % l.length < l.length := Nat.mod_lt _ hlen
  unfold randomChoice
  rw [List.getD_eq_getElem _ _ hlt]
  exact l.getElem_mem hlt

theorem weekday_table_nonempty (w : Nat) :
    (WEEKDAY_CATEGORIES w).getD [("cs.CV")] ≠ [] := by
  rcases w with _ | _ | _ | _ | _ | w <;> simp [WEEKDAY_CATEGORIES]

/-- C9: a non-empty override is returned verbatim; an empty override (or
none) is ignored and the weekday rule applies, whose result is an
element of the weekday table entry, or cs.CV when the weekday is absent
from the table. -/
theorem category_override_and_weekday :
    ∀ (s : String) (w r : Nat),
      (s ≠ "" → get_category_for_today (some s) w r = s) ∧
      (get_category_for_today (some ("")) w r =
        get_category_for_today none w r) ∧
      get_category_for_today none w r ∈
        (WEEKDAY_CATEGORIES w).getD [("cs.CV")] ∧
      (WEEKDAY_CATEGORIES w = none →
        get_category_for_today none w r = "cs.CV") := by
  intro s w r
  refine ⟨?_, ?_, ?_, ?_⟩
  · intro hs
    simp [get_category_for_today, hs]
  · simp [get_category_for_today]
  · exact randomChoice_mem r _ (weekday_table_nonempty w)
  · intro hw
    simp [get_category_for_today, weekday_category, hw, randomChoice,
      Nat.mod_one]

theorem category_override_witness :
    get_category_for_today (some ("cs.RO")) 5 0 = "cs.RO" ∧
    get_category_for_today none 5 0 = "cs.CV" :=
  ⟨(category_override_and_weekday ("cs.RO") 5 0).1 (by decide),
   (category_override_and_weekday ("cs.RO") 5 0).2.2.2 rfl⟩

/-- C8: during drafting, a transport error propagates through
`call_claude_api`; a reply whose joined text is blank is the distinct
empty-content failure; both end the run with a diagnostic on the error
stream and a non-zero exit status. -/
theorem drafting_errors_fatal :
    ∀ (e : String) (result : ApiResult),
      call_claude_api (Except.error e) =
        Except.error (CallError.httpError e) ∧
      (result.type_ ≠ some ("error") →
        pyStripStr (response_text result) = "" →
        call_claude_api (Except.ok result) =
          Except.error CallError.emptyContent) ∧
      (∀ m, CallError.emptyContent ≠ CallError.httpError m) ∧
      drafting_step (Except.error (CallError.httpError e)) =
        RunOutcome.exited 1 true ∧
      drafting_step (Except.error CallError.emptyContent) =
        RunOutcome.exited 1 true ∧
      (1 : Nat) ≠ 0 := by
  intro e result
  refine ⟨rfl, ?_, ?_, rfl, rfl, one_ne_zero⟩
  · intro h1 h2
    simp [call_claude_api, h1, h2]
  · intro m h
    cases h

theorem drafting_errors_fatal_witness :
    call_claude_api (Except.error ("boom")) =
      Except.error (CallError.httpError ("boom")) ∧
    call_claude_api (Except.ok ⟨none, none, []⟩) =
      Except.error CallError.emptyContent ∧
    drafting_step (Except.error CallError.emptyContent) =
      RunOutcome.exited 1 true :=
  ⟨(drafting_errors_fatal ("boom") ⟨none, none, []⟩).1,
   (drafting_errors_fatal ("boom") ⟨none, none, []⟩).2.1
     (by decide) (by decide),
   (drafting_errors_fatal ("boom") ⟨none, none, []⟩).2.2.2.2.1⟩

theorem mem_insertSet {x a : List Char} {s : List (List Char)}
    (h : x ∈ insertSet a s) : x = a ∨ x ∈ s := by
  unfold insertSet at h
  split at h
  · exact Or.inr h
  · rcases List.mem_cons.mp h with h | h
    · exact Or.inl h
    · exact Or.inr h

theorem mem_add_line_id {x : List Char} {acc : List (List Char)}
    {line : List Char} (h : x ∈ add_line_id acc line) :
    x ∈ acc ∨ x ≠ [] := by
  unfold add_line_id at h
  rcases he : extract_arxiv_id line with _ | aid
  · rw [he] at h
    exact Or.inl h
  · rw [he] at h
    dsimp only at h
    by_cases ha : aid ≠ []
    · rw [if_pos ha] at h
      rcases mem_insertSet h with h | h
      · exact Or.inr (h ▸ ha)
      · exact Or.inl h
    · rw [if_neg ha] at h
      exact Or.inl h

theorem foldl_add_line_id_nonempty :
    ∀ (lines : List (List Char)) (acc : List (List Char)),
      (∀ y ∈ acc, y ≠ []) →
      ∀ x ∈ lines.foldl add_line_id acc, x ≠ []
  | [], acc, hacc, x, hx => hacc x hx
  | line :: rest, acc, hacc, x, hx => by
    refine foldl_add_line_id_nonempty rest (add_line_id acc line) ?_ x hx
    intro y hy
    rcases mem_add_line_id hy with h | h
    · exact hacc y h
    · exact h

theorem foldl_files_nonempty :
    ∀ (files : List (List Char)) (acc : List (List Char)),
      (∀ y ∈ acc, y ≠ []) →
      ∀ x ∈ files.foldl
          (fun acc content => (pySplitlines content).foldl add_line_id acc)
          acc, x ≠ []
  | [], acc, hacc, x, hx => hacc x hx
  | content :: rest, acc, hacc, x, hx => by
    refine foldl_files_nonempty rest _ ?_ x hx
    exact fun y hy =>
      foldl_add_line_id_nonempty (pySplitlines content) acc hacc y hy

/-- C10: every identifier in the coverage set produced by
`find_existing_arxiv_ids` is non-empty; an extraction that trims to the
empty string is discarded before insertion. -/
theorem coverage_ids_nonempty :
    ∀ (files : List (List Char)) (aid : List Char),
      aid ∈ find_existing_arxiv_ids files → aid ≠ [] := by
  intro files aid h
  exact foldl_files_nonempty files [] (by intro y hy; cases hy) aid h

theorem rstripWs_snoc_ws :
    ∀ (l : List Char) (c : Char), isPyWs c = true →
      rstripWs (l ++ [c]) = rstripWs l
  | [], c, hc => by simp [rstripWs, hc]
  | x :: l, c, hc => by
    have ih := rstripWs_snoc_ws l c hc
    rw [List.cons_append]
    simp only [rstripWs, List.append_eq, ih]

theorem rstripWs_snoc_not_ws :
    ∀ (l : List Char) (c : Char), isPyWs c = false →
      rstripWs (l ++ [c]) = l ++ [c]
  | [], c, hc => by simp [rstripWs, hc]
  | x :: l, c, hc => by
    have ih := rstripWs_snoc_not_ws l c hc
    rw [List.cons_append]
    simp only [rstripWs, List.append_eq, ih]
    rw [if_neg (by simp)]

theorem rstripWs_idem : ∀ l : List Char, rstripWs (rstripWs l) = rstripWs l
  | [] => rfl
  | x :: l => by
    have ih := rstripWs_idem l
    by_cases h : rstripWs l = [] ∧ isPyWs x = true
    · have h1 : rstripWs (x :: l) = [] := by
        simp only [rstripWs]
        rw [if_pos h]
      rw [h1]
      rfl
    · have h1 : rstripWs (x :: l) = x :: rstripWs l := by
        simp only [rstripWs]
        rw [if_neg h]
      rw [h1]
      simp only [rstripWs, ih]
      rw [if_neg h]

theorem dropWhile_ws_idem (l : List Char) :
    (l.dropWhile isPyWs).dropWhile isPyWs = l.dropWhile isPyWs := by
  induction l with
  | nil => rfl
  | cons c rest ih =>
    by_cases h : isPyWs c
    · simp [List.dropWhile_cons, h, ih]
    · simp [List.dropWhile_cons, h]

theorem dropWhile_ws_of_rstripWs (l : List Char)
    (h : l.dropWhile isPyWs = l) :
    (rstripWs l).dropWhile isPyWs = rstripWs l := by
  match l with
  | [] => rfl
  | x :: rest =>
    have hx : isPyWs x = false := by
      rcases Bool.eq_false_or_eq_true (isPyWs x) with hx | hx
      case inr => exact hx
      case inl =>
        exfalso
        rw [List.dropWhile_cons_of_pos hx] at h
        have hlen := congrArg List.length h
        have hle : (rest.dropWhile isPyWs).length ≤ rest.length :=
          (List.dropWhile_sublist isPyWs).length_le
        simp at hlen
        omega
    simp only [rstripWs]
    split
    · rfl
    · rw [List.dropWhile_cons_of_neg (by simp [hx])]

theorem pyStrip_idem (l : List Char) : pyStrip (pyStrip l) = pyStrip l := by
  unfold pyStrip
  rw [dropWhile_ws_of_rstripWs _ (dropWhile_ws_idem l), rstripWs_idem]

theorem pyStrip_snoc_ws (l : List Char) (c : Char) (hc : isPyWs c = true) :
    pyStrip (l ++ [c]) = pyStrip l := by
  unfold pyStrip
  rw [List.dropWhile_append]
  by_cases h : (l.dropWhile isPyWs).isEmpty
  · have h0 : l.dropWhile isPyWs = [] := by simpa using h
    rw [if_pos (by simp [h0]), h0]
    simp [List.dropWhile_cons, hc]
  · rw [if_neg h]
    exact rstripWs_snoc_ws _ _ hc

theorem rstripWs_append_of :
    ∀ (l t : List Char), rstripWs t = t → t ≠ [] →
      rstripWs (l ++ t) = l ++ t
  | [], t, ht, hne => by simpa using ht
  | x :: l, t, ht, hne => by
    have ih := rstripWs_append_of l t ht hne
    rw [List.cons_append]
    simp only [rstripWs, List.append_eq, ih]
    rw [if_neg]
    simp [hne]

theorem dropThroughNewline_skip :
    ∀ (pre : List Char), (∀ c ∈ pre, c ≠ '\n') →
      ∀ rest : List Char,
        dropThroughNewline (pre ++ '\n' :: rest) = some rest
  | [], _, rest => by simp [dropThroughNewline]
  | c :: pre, h, rest => by
    have hc : c ≠ '\n' := h c (List.mem_cons_self c pre)
    have ih := dropThroughNewline_skip pre
      (fun a ha => h a (List.mem_cons_of_mem c ha)) rest
    simpa [dropThroughNewline, hc] using ih

theorem findLastOcc_append_self :
    ∀ t : List Char,
      findLastOcc fenceMarker (t ++ fenceMarker) = some t.length
  | [] => by decide
  | c :: t => by
    have ih := findLastOcc_append_self t
    rw [List.cons_append]
    simp only [findLastOcc, ih]
    rfl

theorem pyStrip_fenceWrap (s : List Char) :
    pyStrip (fenceWrap s) = fenceWrap s := by
  have e : fenceWrap s =
      "```json\n".data ++ (s ++ ('\n' :: fenceMarker)) := by
    simp [fenceWrap, List.append_assoc]
  have h2 : "```json\n".data.dropWhile isPyWs = "```json\n".data := by
    decide
  have h2' : ("```json\n".data.dropWhile isPyWs).isEmpty = false := by
    decide
  have h1 : rstripWs ('\n' :: fenceMarker) = '\n' :: fenceMarker := by
    decide
  have hdw : (fenceWrap s).dropWhile isPyWs = fenceWrap s := by
    rw [e, List.dropWhile_append, h2']
    simp only [Bool.false_eq_true, if_false, h2]
  have hrs : rstripWs (fenceWrap s) = fenceWrap s := by
    have e2 : fenceWrap s =
        ("```json\n".data ++ s) ++ ('\n' :: fenceMarker) := by
      simp [fenceWrap, List.append_assoc]
    rw [e2]
    exact rstripWs_append_of _ _ h1 (by simp)
  unfold pyStrip
  rw [hdw, hrs]

theorem fence_isPrefixOf_fenceWrap (s : List Char) :
    fenceMarker.isPrefixOf (fenceWrap s) = true := by
  have e : fenceWrap s =
      fenceMarker ++ ("json\n".data ++ (s ++ ('\n' :: fenceMarker))) := by
    simp [fenceWrap, fenceMarker, List.append_assoc]
  rw [e]
  exact List.isPrefixOf_iff_prefix.mpr (List.prefix_append _ _)

theorem dropThroughNewline_fenceWrap (s : List Char) :
    dropThroughNewline (fenceWrap s) = some (s ++ '\n' :: fenceMarker) := by
  have e : fenceWrap s =
      "```json".data ++ '\n' :: (s ++ '\n' :: fenceMarker) := by
    have h : "```json\n".data = "```json".data ++ ['\n'] := by decide
    simp [fenceWrap, h, List.append_assoc]
  rw [e]
  exact dropThroughNewline_skip _ (by decide) _

theorem rsplit_fence_tail (s : List Char) :
    rsplitLastBefore fenceMarker (s ++ '\n' :: fenceMarker) =
      s ++ ['\n'] := by
  have e : s ++ '\n' :: fenceMarker = (s ++ ['\n']) ++ fenceMarker := by
    simp
  rw [rsplitLastBefore, e, findLastOcc_append_self]
  exact List.take_left _ _

theorem clean_reply_of_fenceWrap (s : List Char) :
    clean_reply (fenceWrap s) = some (s ++ ['\n']) := by
  unfold clean_reply
  rw [pyStrip_fenceWrap]
  dsimp only
  rw [if_pos (fence_isPrefixOf_fenceWrap s), dropThroughNewline_fenceWrap]
  simp [rsplit_fence_tail]

/-- C5: score-reply parsing strips an optional surrounding code fence:
a reply that (after stripping) does not start with a fence marker is
passed through stripped, a fenced reply of the form
three-backticks json newline s newline three-backticks has its first
line and trailing fence removed, and for any parser that is insensitive
to surrounding whitespace (as JSON parsing is) the fenced and unfenced
forms parse to the same score list. -/
theorem clean_reply_strips_fence :
    ∀ (s : List Char) (parse : List Char → Option (List ScoreRec)),
      (∀ a b, pyStrip a = pyStrip b → parse a = parse b) →
      fenceMarker.isPrefixOf (pyStrip s) = false →
      clean_reply (fenceWrap s) = some (s ++ ['\n']) ∧
      clean_reply s = some (pyStrip s) ∧
      (clean_reply (fenceWrap s)).bind parse =
        (clean_reply s).bind parse := by
  intro s parse hp hnf
  have h1 : clean_reply (fenceWrap s) = some (s ++ ['\n']) :=
    clean_reply_of_fenceWrap s
  have h2 : clean_reply s = some (pyStrip s) := by
    unfold clean_reply
    dsimp only
    rw [if_neg (by simp [hnf])]
  refine ⟨h1, h2, ?_⟩
  rw [h1, h2]
  exact hp _ _ (by rw [pyStrip_snoc_ws s '\n' (by decide), pyStrip_idem])

theorem clean_reply_strips_fence_witness :
    clean_reply (fenceWrap ("[]".data)) = some ("[]".data ++ ['\n']) ∧
    clean_reply ("[]".data) = some (pyStrip ("[]".data)) ∧
    (clean_reply (fenceWrap ("[]".data))).bind parseStub =
      (clean_reply ("[]".data)).bind parseStub :=
  clean_reply_strips_fence ("[]".data) parseStub
    (by
      intro a b h
      simp only [parseStub, h])
    (by decide)

theorem splitOnFuel_ne_nil (sep : List Char) :
    ∀ (fuel : Nat) (l : List Char), splitOnFuel sep fuel l ≠ []
  | fuel, [] => by
    cases fuel <;> simp [splitOnFuel]
  | 0, c :: rest => by simp [splitOnFuel]
  | fuel + 1, c :: rest => by
    simp only [splitOnFuel]
    split
    · simp
    · split <;> simp

theorem joinSep_cons (sep x : List Char) (S : List (List Char))
    (hS : S ≠ []) :
    joinSep sep (x :: S) = x ++ sep ++ joinSep sep S := by
  match S with
  | [] => exact absurd rfl hS
  | y :: t => rfl

theorem joinSep_cons_head (sep : List Char) (c : Char)
    (h : List Char) (t : List (List Char)) :
    joinSep sep ((c :: h) :: t) = c :: joinSep sep (h :: t) := by
  match t with
  | [] => rfl
  | y :: t => rfl

theorem joinSep_splitOnFuel (sep : List Char) (hsep : sep ≠ []) :
    ∀ (fuel : Nat) (l : List Char), l.length ≤ fuel →
      joinSep sep (splitOnFuel sep fuel l) = l
  | fuel, [], _ => by
    cases fuel <;> simp [splitOnFuel, joinSep]
  | 0, c :: rest, h => by simp at h
  | fuel + 1, c :: rest, h => by
    by_cases hm : sep ≠ [] ∧ sep.isPrefixOf (c :: rest) = true
    · obtain ⟨t, ht⟩ := List.isPrefixOf_iff_prefix.mp hm.2
      have hdrop : (c :: rest).drop sep.length = t := by
        rw [← ht]
        exact List.drop_left _ _
      have hsl : 1 ≤ sep.length := by
        match sep with
        | [] => exact absurd rfl hsep
        | a :: b => simp
      have hlt : t.length ≤ fuel := by
        have hlen := congrArg List.length ht
        simp only [List.length_append] at hlen
        simp only [List.length_cons] at h hlen
        omega
      have ih := joinSep_splitOnFuel sep hsep fuel t hlt
      simp only [splitOnFuel]
      rw [if_pos hm, hdrop,
        joinSep_cons sep [] _ (splitOnFuel_ne_nil sep fuel t), ih]
      simpa using ht
    · have hlt : rest.length ≤ fuel := by
        simp only [List.length_cons] at h
        omega
      have ih := joinSep_splitOnFuel sep hsep fuel rest hlt
      simp only [splitOnFuel]
      rw [if_neg hm]
      rcases hS : splitOnFuel sep fuel rest with _ | ⟨hd, tl⟩
      · exact absurd hS (splitOnFuel_ne_nil sep fuel rest)
      · rw [hS] at ih
        rw [joinSep_cons_head, ih]

theorem occursIn_of_concat (pre post : List Char) :
    occursIn arxivMarker (pre ++ arxivMarker ++ post) = true := by
  unfold occursIn
  rw [List.any_eq_true]
  refine ⟨pre.length, List.mem_range.mpr ?_, ?_⟩
  · simp only [List.length_append]
    omega
  · have hdrop : (pre ++ arxivMarker ++ post).drop pre.length =
        arxivMarker ++ post := by
      rw [List.append_assoc]
      exact List.drop_left _ _
    rw [hdrop]
    exact List.isPrefixOf_iff_prefix.mpr (List.prefix_append _ _)

/-- C6 (amended): for a line in which the coverage marker occurs exactly
once (its marker-split has exactly two parts), the extracted identifier
is the text immediately following the marker, cut at the first closing
parenthesis, closing bracket, or space character, whichever comes first,
with surrounding whitespace trimmed.  A whitespace character other than
a space (such as a tab) does not stop the cut. -/
theorem extract_id_stops_at_paren_bracket_space :
    ∀ (line pre post : List Char),
      splitOnL arxivMarker line = [pre, post] →
      line = pre ++ arxivMarker ++ post ∧
      extract_arxiv_id line =
        some (pyStrip (post.takeWhile
          (fun c => decide (c ≠ ')' ∧ c ≠ ']' ∧ c ≠ ' ')))) := by
  intro line pre post hsplit
  unfold splitOnL at hsplit
  have hline : line = pre ++ arxivMarker ++ post := by
    have hj := joinSep_splitOnFuel arxivMarker (by decide) line.length line
      (le_refl _)
    rw [hsplit, joinSep_cons _ _ _ (by simp)] at hj
    simpa [joinSep] using hj.symm
  refine ⟨hline, ?_⟩
  have hocc : occursIn arxivMarker line = true := by
    rw [hline]
    exact occursIn_of_concat pre post
  unfold extract_arxiv_id
  rw [if_pos hocc]
  unfold splitOnL
  rw [hsplit]
  dsimp only
  unfold takeUntil
  rw [List.takeWhile_takeWhile, List.takeWhile_takeWhile]
  have hpred :
      (fun a : Char => decide
        (decide ((a != ' ') = true ∧ (a != ']') = true) = true ∧
          (a != ')') = true)) =
      (fun c : Char => decide (c ≠ ')' ∧ c ≠ ']' ∧ c ≠ ' ')) := by
    funext c
    by_cases h1 : c = ')' <;> by_cases h2 : c = ']' <;>
      by_cases h3 : c = ' ' <;> simp [h1, h2, h3]
  rw [hpred]

theorem extract_id_stops_witness :
    ("see arxiv.org/abs/2401.12345) more".data =
      "see ".data ++ arxivMarker ++ "2401.12345) more".data) ∧
    extract_arxiv_id ("see arxiv.org/abs/2401.12345) more".data) =
      some (pyStrip (("2401.12345) more".data).takeWhile
        (fun c => decide (c ≠ ')' ∧ c ≠ ']' ∧ c ≠ ' ')))) :=
  extract_id_stops_at_paren_bracket_space _ _ _ (by decide)

/-- The extraction of C6 stated over an arbitrary whitespace character
fails on a tab: the code keeps the tab and what follows it, while the
claim predicts the identifier alone. -/
theorem extract_id_whitespace_counterexample :
    extract_arxiv_id ("see arxiv.org/abs/2401.12345\tmore".data) =
      some ("2401.12345\tmore".data) ∧
    claimed_extract_arxiv_id ("see arxiv.org/abs/2401.12345\tmore".data) =
      some ("2401.12345".data) ∧
    extract_arxiv_id ("see arxiv.org/abs/2401.12345\tmore".data) ≠
      claimed_extract_arxiv_id
        ("see arxiv.org/abs/2401.12345\tmore".data) :=
  ⟨by decide, by decide, by decide⟩

theorem coverage_ids_nonempty_witness :
    ("2401.1".data ∈
      find_existing_arxiv_ids [("x arxiv.org/abs/2401.1) y".data)]) ∧
    ("2401.1".data : List Char) ≠ [] :=
  ⟨by decide,
   coverage_ids_nonempty [("x arxiv.org/abs/2401.1) y".data)]
     ("2401.1".data) (by decide)⟩
